import Mathlib

/-!
Verification of the Doppler sync reference core (reference/sync_script.py).

Paths are modelled as lists of path components (a faithful rendering of the
POSIX path strings the script manipulates: one component per separator-free
segment).  The SQLite store is modelled as a list of rows keyed on the unique
file_path column; the Python dict built by get_transferred_files becomes an
association list with first-match lookup (keys are unique by the schema's
UNIQUE constraint).  HashEngine (calculate_file_hash) reads the real file
system and hashlib, so it enters the model as an explicit parameter
hashFn : path to Except Unit String; Except.error models the IOError the
Python code can raise mid-read.
-/

namespace DopplerSync

/-- One record of scan_master_library's result list: the dict with keys
path, relative_path, size, modified, hash (hash is None until computed). -/
structure FileRecord where
  path : List String
  relative_path : List String
  size : Nat
  modified : Int
  hash : Option String
deriving Repr, DecidableEq

/-- One value of the dict returned by get_transferred_files. -/
structure TransferredInfo where
  hash : String
  size : Nat
  modified : Int
deriving Repr, DecidableEq

/-- One row of the transferred_files table (the id column is omitted: it is
never read back and carries no information used by the program). -/
structure TransferredRow where
  file_path : List String
  file_hash : String
  file_size : Nat
  last_modified : Int
  transferred_date : Int
  transfer_method : String
deriving Repr, DecidableEq

/-- One row of the transfer_sessions table. -/
structure SessionRow where
  session_date : Int
  files_queued : Nat
  files_transferred : Nat
  total_size : Nat
  duration_seconds : Option Int
deriving Repr, DecidableEq

/-- The SQLite database file: each table is None while absent (before
CREATE TABLE IF NOT EXISTS has ever run) and Some rows once created. -/
structure Database where
  transferred_files : Option (List TransferredRow)
  transfer_sessions : Option (List SessionRow)
deriving Repr, DecidableEq

/-- The candidates dict built by identify_sync_candidates. -/
structure Candidates where
  new_files : List FileRecord
  modified_files : List FileRecord
  missing_transfers : List FileRecord
deriving Repr, DecidableEq

/-- One entry of the transfer queue's files list. -/
structure QueueEntry where
  path : List String
  relative_path : List String
  size : Nat
  status : String
deriving Repr, DecidableEq

/-- The queue_data document written by create_transfer_queue. -/
structure QueueData where
  created : String
  total_files : Nat
  total_size : Nat
  files : List QueueEntry
deriving Repr, DecidableEq

/-- One filesystem entry yielded by master_dir.rglob, with the stat fields
the scanner reads.  components is the absolute path, one segment per item. -/
structure FSEntry where
  components : List String
  isFile : Bool
  size : Nat
  mtime : Int
deriving Repr, DecidableEq

instance : DecidableEq (Except Unit String) := fun a b =>
  match a, b with
  | Except.error u, Except.error v => isTrue (by cases u; cases v; rfl)
  | Except.error _, Except.ok _ => isFalse (fun h => Except.noConfusion h)
  | Except.ok _, Except.error _ => isFalse (fun h => Except.noConfusion h)
  | Except.ok x, Except.ok y =>
      if h : x = y then isTrue (by rw [h]) else isFalse (fun hc => h (Except.ok.inj hc))

/-- Boolean success test for a hash computation result. -/
def exceptOk (x : Except Unit String) : Bool :=
  match x with
  | Except.ok _ => true
  | Except.error _ => false

/-- The audio_extensions set of DopplerSyncManager. -/
def audio_extensions : List String :=
  [".mp3", ".m4a", ".flac", ".wav", ".aac", ".m4p"]

/-- ASCII lowercasing, one character at a time: the observable behavior of
str.lower on the extension strings compared here. -/
def lowerString (s : String) : String := String.mk (s.data.map Char.toLower)

/-- Split a character list at its last dot: the parts before and after it. -/
def lastSplit : List Char → Option (List Char × List Char)
  | [] => none
  | c :: rest =>
    match lastSplit rest with
    | some (a, b) => some (c :: a, b)
    | none => if c = Char.ofNat 46 then some ([], rest) else none

/-- Pathlib's suffix of a final path component: the part from the last dot,
empty when the name has no dot, starts with its only dot, or ends in a dot. -/
def path_suffix (name : String) : String :=
  match lastSplit name.data with
  | none => ""
  | some (pre, ext) =>
      if pre = [] ∨ ext = [] then "" else String.mk (Char.ofNat 46 :: ext)

/-- scan_master_library: filter the rglob output down to audio files and
build one FileRecord per file.  relative_path is file_path.relative_to
applied to master_dir, i.e. the components with the root prefix removed. -/
def scan_master_library (master_dir : List String) (entries : List FSEntry) :
    List FileRecord :=
  entries.filterMap (fun e =>
    if e.isFile ∧ lowerString (path_suffix (e.components.getLastD "")) ∈ audio_extensions then
      some { path := e.components,
             relative_path := e.components.drop master_dir.length,
             size := e.size,
             modified := e.mtime,
             hash := none }
    else none)

/-- Lookup in the transferred dict (first match; keys are unique). -/
def lookupEntry : List (List String × TransferredInfo) → List String → Option TransferredInfo
  | [], _ => none
  | (k, v) :: rest, key => if k = key then some v else lookupEntry rest key

/-- get_transferred_files: SELECT file_path, file_hash, file_size,
last_modified from transferred_files, loaded into a dict keyed on path. -/
def get_transferred_files (rows : List TransferredRow) :
    List (List String × TransferredInfo) :=
  rows.map (fun r =>
    (r.file_path, { hash := r.file_hash, size := r.file_size, modified := r.last_modified }))

/-- The for-loop of identify_sync_candidates over master_files, appending to
the three candidate lists; hashFn stands for calculate_file_hash, whose
IOError is the Except.error case and propagates out of the loop. -/
def identifyLoop (hashFn : List String → Except Unit String)
    (transferred : List (List String × TransferredInfo)) :
    List FileRecord → Except Unit Candidates
  | [] => Except.ok { new_files := [], modified_files := [], missing_transfers := [] }
  | f :: rest =>
    match lookupEntry transferred f.relative_path with
    | none =>
      match identifyLoop hashFn transferred rest with
      | Except.error e => Except.error e
      | Except.ok c => Except.ok { c with new_files := f :: c.new_files }
    | some t =>
      if f.size ≠ t.size ∨ f.modified ≠ t.modified then
        match hashFn f.path with
        | Except.error e => Except.error e
        | Except.ok h =>
          if h ≠ t.hash then
            match identifyLoop hashFn transferred rest with
            | Except.error e => Except.error e
            | Except.ok c =>
                Except.ok { c with modified_files := { f with hash := some h } :: c.modified_files }
          else identifyLoop hashFn transferred rest
      else identifyLoop hashFn transferred rest

/-- identify_sync_candidates on explicit snapshots: the scan result and the
loaded transfer dict are its two data inputs. -/
def identify_sync_candidates (hashFn : List String → Except Unit String)
    (master_files : List FileRecord)
    (transferred : List (List String × TransferredInfo)) : Except Unit Candidates :=
  identifyLoop hashFn transferred master_files

/-- A record reaches the hashing step exactly when a stored entry exists for
its relative path and size or mtime disagrees with it. -/
def needsHash (transferred : List (List String × TransferredInfo)) (f : FileRecord) : Bool :=
  match lookupEntry transferred f.relative_path with
  | none => false
  | some t => decide (f.size ≠ t.size ∨ f.modified ≠ t.modified)

/-- A record is classified new exactly when no stored entry exists. -/
def isNewRec (transferred : List (List String × TransferredInfo)) (f : FileRecord) : Bool :=
  (lookupEntry transferred f.relative_path).isNone

/-- The modified-list entry a single record contributes, if any: the record
with its hash filled in, kept only when the fresh hash differs from the
stored one. -/
def modEntry (hashFn : List String → Except Unit String)
    (transferred : List (List String × TransferredInfo)) (f : FileRecord) :
    Option FileRecord :=
  match lookupEntry transferred f.relative_path with
  | none => none
  | some t =>
    if f.size ≠ t.size ∨ f.modified ≠ t.modified then
      match hashFn f.path with
      | Except.error _ => none
      | Except.ok h => if h ≠ t.hash then some { f with hash := some h } else none
    else none

/-- A file is treated as unchanged by a detection result when no entry of any
candidate list carries its relative path. -/
def unchangedIn (c : Candidates) (f : FileRecord) : Prop :=
  (∀ g ∈ c.new_files, g.relative_path ≠ f.relative_path) ∧
  (∀ g ∈ c.modified_files, g.relative_path ≠ f.relative_path) ∧
  (∀ g ∈ c.missing_transfers, g.relative_path ≠ f.relative_path)

instance (c : Candidates) (f : FileRecord) : Decidable (unchangedIn c f) := by
  unfold unchangedIn; infer_instance

/-- The inner loop of create_transfer_queue: add one queue entry per record
and accumulate total_size. -/
def queueAdd : QueueData → List FileRecord → QueueData
  | q, [] => q
  | q, f :: rest =>
      queueAdd
        { q with
          total_size := q.total_size + f.size,
          files := q.files ++
            [{ path := f.path, relative_path := f.relative_path, size := f.size,
               status := "queued" }] }
        rest

/-- create_transfer_queue: the queue document built from the candidates, with
total_files precomputed and the loop running over new then modified files.
The created stamp (datetime.now().isoformat()) is an input. -/
def create_transfer_queue (created : String) (c : Candidates) : QueueData :=
  queueAdd
    { created := created,
      total_files := c.new_files.length + c.modified_files.length,
      total_size := 0,
      files := [] }
    (c.new_files ++ c.modified_files)

/-- INSERT OR REPLACE into transferred_files keyed on the unique file_path
column: replace the matching row if present, else insert. -/
def upsertRow : List TransferredRow → TransferredRow → List TransferredRow
  | [], r => [r]
  | r' :: rest, r =>
      if r'.file_path = r.file_path then r :: rest else r' :: upsertRow rest r

/-- Row lookup by key in the transferred_files table. -/
def findRow : List TransferredRow → List String → Option TransferredRow
  | [], _ => none
  | r :: rest, k => if r.file_path = k then some r else findRow rest k

/-- mark_as_transferred: stat and hash the file (its current size, mtime and
path are carried by the FileRecord for the same library state), then upsert a
row keyed on the relative path; a hash IOError propagates. -/
def mark_as_transferred (hashFn : List String → Except Unit String)
    (db : List TransferredRow) (f : FileRecord) (now : Int) (method : String) :
    Except Unit (List TransferredRow) :=
  match hashFn f.path with
  | Except.error e => Except.error e
  | Except.ok h =>
      Except.ok (upsertRow db
        { file_path := f.relative_path, file_hash := h, file_size := f.size,
          last_modified := f.modified, transferred_date := now, transfer_method := method })

/-- init_database: CREATE TABLE IF NOT EXISTS for both tables — a missing
table becomes empty, an existing table keeps its rows. -/
def init_database (db : Database) : Database :=
  { transferred_files := some (db.transferred_files.getD []),
    transfer_sessions := some (db.transfer_sessions.getD []) }

/-- The queue-file effect of main: create_transfer_queue rewrites the queue
file only when total_files is positive; otherwise the previous queue file,
if any, is left untouched. -/
def mainQueueStep (created : String) (prev : Option QueueData) (c : Candidates) :
    Option QueueData :=
  if c.new_files.length + c.modified_files.length > 0 then
    some (create_transfer_queue created c)
  else prev

/-! Concrete inputs used by the closed theorems below. -/

/-- Hash oracle for the three-file runs: a fixed digest per path. -/
def wHash : List String → Except Unit String := fun p =>
  if p = ["M", "b.mp3"] then Except.ok "hB2" else Except.ok "hA"

/-- Hash oracle agreeing with wHash exactly on the paths that get hashed. -/
def wHash2 : List String → Except Unit String := fun p =>
  if p = ["M", "b.mp3"] then Except.ok "hB2" else Except.ok "zz"

/-- A file absent from the store (classified new). -/
def wfA : FileRecord :=
  { path := ["M", "a.mp3"], relative_path := ["a.mp3"], size := 3, modified := 10, hash := none }

/-- A file whose stored mtime is stale and whose content hash changed. -/
def wfB : FileRecord :=
  { path := ["M", "b.mp3"], relative_path := ["b.mp3"], size := 4, modified := 20, hash := none }

/-- A file whose stored size and mtime match exactly. -/
def wfC : FileRecord :=
  { path := ["M", "c.mp3"], relative_path := ["c.mp3"], size := 5, modified := 30, hash := none }

/-- A three-file master scan. -/
def wM : List FileRecord := [wfA, wfB, wfC]

/-- The loaded transfer dict for the three-file runs. -/
def wStore : List (List String × TransferredInfo) :=
  [(["b.mp3"], { hash := "hB1", size := 4, modified := 21 }),
   (["c.mp3"], { hash := "hC", size := 5, modified := 30 })]

/-- The detection result on wM against wStore. -/
def wC : Candidates :=
  { new_files := [wfA],
    modified_files := [{ wfB with hash := some "hB2" }],
    missing_transfers := [] }

/-- Hash oracle for the round-trip run. -/
def w3Hash : List String → Except Unit String := fun _ => Except.ok "hA3"

/-- The row mark_as_transferred writes for wfA under w3Hash. -/
def w3row : TransferredRow :=
  { file_path := ["a.mp3"], file_hash := "hA3", file_size := 3, last_modified := 10,
    transferred_date := 999, transfer_method := "manual" }

/-- Hash oracle that always fails (every file unreadable mid-read). -/
def c5hash : List String → Except Unit String := fun _ => Except.error ()

/-- A stored file whose size drifted, forcing a hash during detection. -/
def c5fA : FileRecord :=
  { path := ["M", "a.mp3"], relative_path := ["a.mp3"], size := 10, modified := 100, hash := none }

/-- A file absent from the store, scanned after c5fA. -/
def c5fB : FileRecord :=
  { path := ["M", "b.mp3"], relative_path := ["b.mp3"], size := 5, modified := 50, hash := none }

/-- Store holding a drifted entry for c5fA only. -/
def c5store : List (List String × TransferredInfo) :=
  [(["a.mp3"], { hash := "oldA", size := 11, modified := 100 })]

/-- A queue document left on disk by a previous run. -/
def c6stale : QueueData :=
  { created := "2024-01-01T00:00:00", total_files := 1, total_size := 5,
    files := [{ path := ["M", "a.mp3"], relative_path := ["a.mp3"], size := 5,
                status := "queued" }] }

/-- A pre-existing row of the store. -/
def w8row : TransferredRow :=
  { file_path := ["t.mp3"], file_hash := "h8", file_size := 1, last_modified := 2,
    transferred_date := 3, transfer_method := "auto" }

/-- A database whose transferred_files table already exists. -/
def w8db : Database :=
  { transferred_files := some [w8row], transfer_sessions := none }

/-- The master library root of the scan runs. -/
def c9root : List String := ["Users", "u", "Music", "DopplerMaster"]

/-- A mixed-case audio file under the root. -/
def c9entry : FSEntry :=
  { components := ["Users", "u", "Music", "DopplerMaster", "Track.MP3"],
    isFile := true, size := 7, mtime := 111 }

/-- A second, lowercase audio file under the root. -/
def c9entry2 : FSEntry :=
  { components := ["Users", "u", "Music", "DopplerMaster", "b.mp3"],
    isFile := true, size := 8, mtime := 112 }

/-! Helper lemmas about the detection loop. -/

theorem identifyLoop_ok_shape (hashFn : List String → Except Unit String)
    (transferred : List (List String × TransferredInfo)) :
    ∀ (m : List FileRecord) (c : Candidates),
      identifyLoop hashFn transferred m = Except.ok c →
      c = { new_files := m.filter (isNewRec transferred),
            modified_files := m.filterMap (modEntry hashFn transferred),
            missing_transfers := [] } := by
  intro m
  induction m with
  | nil =>
      intro c h
      simp only [identifyLoop, Except.ok.injEq] at h
      simp [← h]
  | cons f rest ih =>
      intro c h
      cases hl : lookupEntry transferred f.relative_path with
      | none =>
          have hnew : isNewRec transferred f = true := by simp [isNewRec, hl]
          have hmod : modEntry hashFn transferred f = none := by simp only [modEntry, hl]
          simp only [identifyLoop, hl] at h
          cases hr : identifyLoop hashFn transferred rest with
          | error e => simp only [hr] at h; simp at h
          | ok c' =>
              simp only [hr, Except.ok.injEq] at h
              subst h
              rw [ih c' hr]
              simp [List.filter_cons, List.filterMap_cons, hnew, hmod]
      | some t =>
          have hnew : isNewRec transferred f = false := by simp [isNewRec, hl]
          simp only [identifyLoop, hl] at h
          by_cases hcond : f.size ≠ t.size ∨ f.modified ≠ t.modified
          · rw [if_pos hcond] at h
            cases hh : hashFn f.path with
            | error e => rw [hh] at h; simp at h
            | ok hv =>
                simp only [hh] at h
                by_cases hne : hv ≠ t.hash
                · have hmod : modEntry hashFn transferred f = some { f with hash := some hv } := by
                    simp only [modEntry, hl, if_pos hcond, hh, if_pos hne]
                  rw [if_pos hne] at h
                  cases hr : identifyLoop hashFn transferred rest with
                  | error e => simp only [hr] at h; simp at h
                  | ok c' =>
                      simp only [hr, Except.ok.injEq] at h
                      subst h
                      rw [ih c' hr]
                      simp [List.filter_cons, List.filterMap_cons, hnew, hmod]
                · have hmod : modEntry hashFn transferred f = none := by
                    simp only [modEntry, hl, if_pos hcond, hh, if_neg hne]
                  rw [if_neg hne] at h
                  rw [ih c h]
                  simp [List.filter_cons, List.filterMap_cons, hnew, hmod]
          · have hmod : modEntry hashFn transferred f = none := by
              simp only [modEntry, hl, if_neg hcond]
            rw [if_neg hcond] at h
            rw [ih c h]
            simp [List.filter_cons, List.filterMap_cons, hnew, hmod]

theorem identifyLoop_ok_hashes (hashFn : List String → Except Unit String)
    (transferred : List (List String × TransferredInfo)) :
    ∀ (m : List FileRecord) (c : Candidates),
      identifyLoop hashFn transferred m = Except.ok c →
      ∀ f ∈ m, needsHash transferred f = true → exceptOk (hashFn f.path) = true := by
  intro m
  induction m with
  | nil => intro c _ f hf; simp at hf
  | cons g rest ih =>
      intro c h f hf hneed
      rcases List.mem_cons.mp hf with rfl | hf
      · simp only [needsHash] at hneed
        cases hl : lookupEntry transferred f.relative_path with
        | none => simp only [hl] at hneed; simp at hneed
        | some t =>
            simp only [hl] at hneed
            have hcond := of_decide_eq_true hneed
            simp only [identifyLoop, hl] at h
            rw [if_pos hcond] at h
            cases hh : hashFn f.path with
            | error e => simp only [hh] at h; simp at h
            | ok hv => simp [exceptOk, hh]
      · cases hl : lookupEntry transferred g.relative_path with
        | none =>
            simp only [identifyLoop, hl] at h
            cases hr : identifyLoop hashFn transferred rest with
            | error e => simp only [hr] at h; simp at h
            | ok c' => exact ih c' hr f hf hneed
        | some t =>
            simp only [identifyLoop, hl] at h
            by_cases hcond : g.size ≠ t.size ∨ g.modified ≠ t.modified
            · rw [if_pos hcond] at h
              cases hh : hashFn g.path with
              | error e => simp only [hh] at h; simp at h
              | ok hv =>
                  simp only [hh] at h
                  by_cases hne : hv ≠ t.hash
                  · rw [if_pos hne] at h
                    cases hr : identifyLoop hashFn transferred rest with
                    | error e => simp only [hr] at h; simp at h
                    | ok c' => exact ih c' hr f hf hneed
                  · rw [if_neg hne] at h
                    exact ih c h f hf hneed
            · rw [if_neg hcond] at h
              exact ih c h f hf hneed

theorem identifyLoop_ok_of (hashFn : List String → Except Unit String)
    (transferred : List (List String × TransferredInfo)) :
    ∀ (m : List FileRecord),
      (∀ f ∈ m, needsHash transferred f = true → exceptOk (hashFn f.path) = true) →
      identifyLoop hashFn transferred m =
        Except.ok { new_files := m.filter (isNewRec transferred),
                    modified_files := m.filterMap (modEntry hashFn transferred),
                    missing_transfers := [] } := by
  intro m
  induction m with
  | nil => intro _; simp [identifyLoop]
  | cons f rest ih =>
      intro hOk
      have hrest : ∀ g ∈ rest, needsHash transferred g = true → exceptOk (hashFn g.path) = true :=
        fun g hg => hOk g (List.mem_cons_of_mem _ hg)
      cases hl : lookupEntry transferred f.relative_path with
      | none =>
          have hnew : isNewRec transferred f = true := by simp [isNewRec, hl]
          have hmod : modEntry hashFn transferred f = none := by simp only [modEntry, hl]
          simp only [identifyLoop, hl, ih hrest]
          simp [List.filter_cons, List.filterMap_cons, hnew, hmod]
      | some t =>
          have hnew : isNewRec transferred f = false := by simp [isNewRec, hl]
          by_cases hcond : f.size ≠ t.size ∨ f.modified ≠ t.modified
          · have hneed : needsHash transferred f = true := by
              simp only [needsHash, hl]
              exact decide_eq_true hcond
            have hok := hOk f (List.mem_cons_self _ _) hneed
            cases hh : hashFn f.path with
            | error e => rw [hh] at hok; simp [exceptOk] at hok
            | ok hv =>
                by_cases hne : hv ≠ t.hash
                · have hmod : modEntry hashFn transferred f = some { f with hash := some hv } := by
                    simp only [modEntry, hl, if_pos hcond, hh, if_pos hne]
                  simp only [identifyLoop, hl, if_pos hcond, hh, if_pos hne, ih hrest]
                  simp [List.filter_cons, List.filterMap_cons, hnew, hmod]
                · have hmod : modEntry hashFn transferred f = none := by
                    simp only [modEntry, hl, if_pos hcond, hh, if_neg hne]
                  simp only [identifyLoop, hl, if_pos hcond, hh, if_neg hne, ih hrest]
                  simp [List.filter_cons, List.filterMap_cons, hnew, hmod]
          · have hmod : modEntry hashFn transferred f = none := by
              simp only [modEntry, hl, if_neg hcond]
            simp only [identifyLoop, hl, if_neg hcond, ih hrest]
            simp [List.filter_cons, List.filterMap_cons, hnew, hmod]

/-! Helper lemmas: inversion, pairwise keys, store and queue arithmetic. -/

theorem except_unit_error {α : Type} (x : Except Unit α) (h : ∀ c, x ≠ Except.ok c) :
    x = Except.error () := by
  cases x with
  | error e => cases e; rfl
  | ok c => exact absurd rfl (h c)

theorem modEntry_some_inv (hashFn : List String → Except Unit String)
    (transferred : List (List String × TransferredInfo)) (f g : FileRecord)
    (h : modEntry hashFn transferred f = some g) :
    ∃ t hv, lookupEntry transferred f.relative_path = some t ∧
      (f.size ≠ t.size ∨ f.modified ≠ t.modified) ∧
      hashFn f.path = Except.ok hv ∧ hv ≠ t.hash ∧
      g = { f with hash := some hv } := by
  cases hl : lookupEntry transferred f.relative_path with
  | none =>
      simp only [modEntry, hl] at h
      exact Option.noConfusion h
  | some t =>
      simp only [modEntry, hl] at h
      by_cases hcond : f.size ≠ t.size ∨ f.modified ≠ t.modified
      · rw [if_pos hcond] at h
        cases hh : hashFn f.path with
        | error e =>
            simp only [hh] at h
            exact Option.noConfusion h
        | ok hv =>
            simp only [hh] at h
            by_cases hne : hv ≠ t.hash
            · rw [if_pos hne] at h
              simp only [Option.some.injEq] at h
              exact ⟨t, hv, rfl, hcond, rfl, hne, h.symm⟩
            · rw [if_neg hne] at h
              exact Option.noConfusion h
      · rw [if_neg hcond] at h
        exact Option.noConfusion h

theorem modEntry_congr (hashFn hashFn2 : List String → Except Unit String)
    (transferred : List (List String × TransferredInfo)) (f : FileRecord)
    (hag : needsHash transferred f = true → hashFn f.path = hashFn2 f.path) :
    modEntry hashFn transferred f = modEntry hashFn2 transferred f := by
  cases hl : lookupEntry transferred f.relative_path with
  | none => simp only [modEntry, hl]
  | some t =>
      simp only [modEntry, hl]
      by_cases hcond : f.size ≠ t.size ∨ f.modified ≠ t.modified
      · rw [if_pos hcond, if_pos hcond,
          hag (by simp only [needsHash, hl]; exact decide_eq_true hcond)]
      · rw [if_neg hcond, if_neg hcond]

theorem rel_path_inj {m : List FileRecord}
    (hdist : m.Pairwise (fun a b => a.relative_path ≠ b.relative_path)) :
    ∀ a ∈ m, ∀ b ∈ m, a.relative_path = b.relative_path → a = b := by
  induction m with
  | nil => simp
  | cons x xs ih =>
      cases hdist with
      | cons hx hxs =>
          intro a ha b hb hab
          rcases List.mem_cons.mp ha with ha1 | ha2
          · rcases List.mem_cons.mp hb with hb1 | hb2
            · rw [ha1, hb1]
            · subst ha1
              exact absurd hab (hx b hb2)
          · rcases List.mem_cons.mp hb with hb1 | hb2
            · subst hb1
              exact absurd hab.symm (hx a ha2)
            · exact ih hxs a ha2 b hb2 hab

theorem unchanged_of_shape (hashFn : List String → Except Unit String)
    (transferred : List (List String × TransferredInfo)) (m : List FileRecord)
    (f : FileRecord)
    (hdist : m.Pairwise (fun a b => a.relative_path ≠ b.relative_path))
    (hf : f ∈ m)
    (hnew : isNewRec transferred f = false)
    (hmod : modEntry hashFn transferred f = none) :
    unchangedIn
      { new_files := m.filter (isNewRec transferred),
        modified_files := m.filterMap (modEntry hashFn transferred),
        missing_transfers := [] } f := by
  refine ⟨?_, ?_, ?_⟩
  · intro g hg hgf
    have hm := List.mem_filter.mp hg
    have heq : isNewRec transferred g = isNewRec transferred f := by
      simp [isNewRec, hgf]
    rw [heq, hnew] at hm
    exact absurd hm.2 (by simp)
  · intro g hg hgf
    obtain ⟨a, ha, hma⟩ := List.mem_filterMap.mp hg
    obtain ⟨t, hv, hlt, hcond, hh, hne, rfl⟩ := modEntry_some_inv hashFn transferred a g hma
    have haf : a = f := rel_path_inj hdist a ha f hf hgf
    subst haf
    rw [hmod] at hma
    exact Option.noConfusion hma
  · intro g hg _
    simp at hg

theorem pairwise_filterMap_of {α β : Type} {R : α → α → Prop} {S : β → β → Prop}
    (f : α → Option β) (l : List α) (hl : l.Pairwise R)
    (H : ∀ a b, R a b → ∀ x y, f a = some x → f b = some y → S x y) :
    (l.filterMap f).Pairwise S := by
  induction l with
  | nil => simp
  | cons a rest ih =>
      cases hl with
      | cons ha hrest =>
          simp only [List.filterMap_cons]
          cases hfa : f a with
          | none => exact ih hrest
          | some x =>
              refine List.Pairwise.cons ?_ (ih hrest)
              intro y hy
              obtain ⟨b, hb, hfb⟩ := List.mem_filterMap.mp hy
              exact H a b (ha b hb) x y hfa hfb

theorem queueAdd_eq :
    ∀ (l : List FileRecord) (q : QueueData),
      queueAdd q l =
        { q with
          total_size := q.total_size + (l.map FileRecord.size).sum,
          files := q.files ++ l.map (fun f =>
            { path := f.path, relative_path := f.relative_path, size := f.size,
              status := "queued" }) } := by
  intro l
  induction l with
  | nil => intro q; simp [queueAdd]
  | cons f rest ih =>
      intro q
      simp only [queueAdd]
      rw [ih]
      simp [Nat.add_assoc]

theorem findRow_upsertRow_self :
    ∀ (db : List TransferredRow) (r : TransferredRow),
      findRow (upsertRow db r) r.file_path = some r := by
  intro db r
  induction db with
  | nil => simp [upsertRow, findRow]
  | cons r' rest ih =>
      by_cases h : r'.file_path = r.file_path
      · simp [upsertRow, h, findRow]
      · simp [upsertRow, h, findRow, ih]

theorem findRow_upsertRow_other :
    ∀ (db : List TransferredRow) (r : TransferredRow) (k : List String),
      k ≠ r.file_path → findRow (upsertRow db r) k = findRow db k := by
  intro db r
  induction db with
  | nil =>
      intro k hk
      have hk2 : ¬ r.file_path = k := fun hh => hk hh.symm
      simp [upsertRow, findRow, hk2]
  | cons r' rest ih =>
      intro k hk
      by_cases h : r'.file_path = r.file_path
      · have hk' : ¬ r.file_path = k := fun hh => hk hh.symm
        have hk'' : ¬ r'.file_path = k := by rw [h]; exact hk'
        simp [upsertRow, h, findRow, hk', hk'']
      · simp only [upsertRow, if_neg h, findRow]
        by_cases hkk : r'.file_path = k
        · simp [hkk]
        · simp [hkk, ih k hk]

theorem findRow_isSome_upsertRow (db : List TransferredRow) (r : TransferredRow)
    (k : List String) (h : (findRow db k).isSome = true) :
    (findRow (upsertRow db r) k).isSome = true := by
  by_cases hk : k = r.file_path
  · subst hk; rw [findRow_upsertRow_self]; rfl
  · rw [findRow_upsertRow_other db r k hk]; exact h

theorem lookupEntry_get_upsertRow :
    ∀ (db : List TransferredRow) (r : TransferredRow),
      lookupEntry (get_transferred_files (upsertRow db r)) r.file_path =
        some { hash := r.file_hash, size := r.file_size, modified := r.last_modified } := by
  intro db r
  induction db with
  | nil => simp [upsertRow, get_transferred_files, lookupEntry]
  | cons r' rest ih =>
      by_cases h : r'.file_path = r.file_path
      · simp [upsertRow, h, get_transferred_files, lookupEntry]
      · simp only [upsertRow, if_neg h, get_transferred_files, List.map_cons, lookupEntry,
          if_neg h]
        exact ih

theorem filterMap_congr_mem {α β : Type} (f g : α → Option β) :
    ∀ (l : List α), (∀ x ∈ l, f x = g x) → l.filterMap f = l.filterMap g := by
  intro l
  induction l with
  | nil => intro _; rfl
  | cons a rest ih =>
      intro h
      simp only [List.filterMap_cons, h a (List.mem_cons_self _ _),
        ih (fun x hx => h x (List.mem_cons_of_mem _ hx))]

theorem pairwise_drop_of_take {root : List String} :
    ∀ (entries : List FSEntry),
      (∀ e ∈ entries, e.components.take root.length = root) →
      entries.Pairwise (fun a b => a.components ≠ b.components) →
      entries.Pairwise (fun a b =>
        a.components.drop root.length ≠ b.components.drop root.length) := by
  intro entries
  induction entries with
  | nil => intro _ _; exact List.Pairwise.nil
  | cons e rest ih =>
      intro hroot hdist
      cases hdist with
      | cons he hrest =>
          refine List.Pairwise.cons ?_
            (ih (fun x hx => hroot x (List.mem_cons_of_mem _ hx)) hrest)
          intro b hb hdeq
          apply he b hb
          have h1 := hroot e (List.mem_cons_self _ _)
          have h2 := hroot b (List.mem_cons_of_mem _ hb)
          have he2 := List.take_append_drop root.length e.components
          have hb2 := List.take_append_drop root.length b.components
          rw [h1] at he2
          rw [h2] at hb2
          rw [← he2, ← hb2, hdeq]

/-! Claim theorems. -/

/-- Claim C1: for every master FileRecord and stored-entry mapping, detect
classifies the record as new exactly when its relativePath is absent from
the stored entries; when an entry exists and both size and modifiedTime
match it exactly, the record is unchanged and appears in no candidate list;
when either differs, the content hash is computed and the record is
classified modified exactly when that hash differs from the stored hash,
and unchanged when it matches. -/
theorem c1_change_detection_classification
    (hashFn : List String → Except Unit String) (m : List FileRecord)
    (s : List (List String × TransferredInfo)) (c : Candidates)
    (hdist : m.Pairwise (fun a b => a.relative_path ≠ b.relative_path))
    (hok : identify_sync_candidates hashFn m s = Except.ok c) :
    ∀ f ∈ m,
      (f ∈ c.new_files ↔ lookupEntry s f.relative_path = none) ∧
      (∀ t, lookupEntry s f.relative_path = some t →
        (f.size = t.size ∧ f.modified = t.modified → unchangedIn c f) ∧
        (∀ hv, (f.size ≠ t.size ∨ f.modified ≠ t.modified) →
          hashFn f.path = Except.ok hv →
          (({ f with hash := some hv } ∈ c.modified_files) ↔ hv ≠ t.hash) ∧
          (hv = t.hash → unchangedIn c f))) := by
  intro f hf
  have hshape := identifyLoop_ok_shape hashFn s m c hok
  subst hshape
  refine ⟨⟨?_, ?_⟩, ?_⟩
  · intro hmem
    have h2 := (List.mem_filter.mp hmem).2
    simpa [isNewRec, Option.isNone_iff_eq_none] using h2
  · intro hnone
    exact List.mem_filter.mpr ⟨hf, by simp [isNewRec, hnone]⟩
  · intro t ht
    constructor
    · rintro ⟨hsz, hmd⟩
      have hnc : ¬ (f.size ≠ t.size ∨ f.modified ≠ t.modified) := by
        push_neg
        exact ⟨hsz, hmd⟩
      exact unchanged_of_shape hashFn s m f hdist hf
        (by simp [isNewRec, ht])
        (by simp only [modEntry, ht, if_neg hnc])
    · intro hv hcond hh
      constructor
      · constructor
        · intro hmem
          obtain ⟨a, ha, hma⟩ := List.mem_filterMap.mp hmem
          obtain ⟨t2, hv2, hlt2, hcond2, hh2, hne2, heq⟩ :=
            modEntry_some_inv hashFn s a _ hma
          have harel : a.relative_path = f.relative_path := by
            have hcr := congrArg FileRecord.relative_path heq
            exact hcr.symm
          have haf : a = f := rel_path_inj hdist a ha f hf harel
          subst haf
          rw [ht] at hlt2
          injection hlt2 with ht2
          subst ht2
          rw [hh] at hh2
          have hveq := Except.ok.inj hh2
          subst hveq
          exact hne2
        · intro hne
          refine List.mem_filterMap.mpr ⟨f, hf, ?_⟩
          simp only [modEntry, ht, if_pos hcond, hh, if_pos hne]
      · intro heq
        have hne : ¬ (hv ≠ t.hash) := by simp [heq]
        exact unchanged_of_shape hashFn s m f hdist hf
          (by simp [isNewRec, ht])
          (by simp only [modEntry, ht, if_pos hcond, hh, if_neg hne])

/-- Witness for C1 at a concrete three-file run: the absent file is listed
as new and the metadata-matching file is unchanged. -/
theorem c1_witness : wfA ∈ wC.new_files ∧ unchangedIn wC wfC := by
  have h := c1_change_detection_classification wHash wM wStore wC (by decide) (by rfl)
  refine ⟨((h wfA (by simp [wM])).1).mpr (by decide), ?_⟩
  exact ((h wfC (by simp [wM])).2 { hash := "hC", size := 5, modified := 30 }
    (by decide)).1 ⟨rfl, rfl⟩

/-- Claim C10: the candidates dict always carries a missing_transfers list
that is initialized and never filled: whenever detection returns, that list
is empty. -/
theorem c10_missing_transfers_empty
    (hashFn : List String → Except Unit String) (m : List FileRecord)
    (s : List (List String × TransferredInfo)) (c : Candidates)
    (hok : identify_sync_candidates hashFn m s = Except.ok c) :
    c.missing_transfers = [] := by
  rw [identifyLoop_ok_shape hashFn s m c hok]

/-- Witness for C10 at the concrete three-file run. -/
theorem c10_witness : wC.missing_transfers = [] := by
  exact c10_missing_transfers_empty wHash wM wStore wC (by rfl)

/-- Claim C2: a file's content hash is computed only when a stored entry
exists for its relative path and (size, modifiedTime) disagrees with it —
detection cannot observe the hash oracle anywhere else; files whose stored
metadata matches exactly are never hashed and appear in no candidate list;
files absent from the store appear verbatim in new_files with their hash
field still unset. -/
theorem c2_lazy_hashing
    (hashFn hashFn2 : List String → Except Unit String) (m : List FileRecord)
    (s : List (List String × TransferredInfo))
    (hagree : ∀ f ∈ m, needsHash s f = true → hashFn f.path = hashFn2 f.path) :
    identify_sync_candidates hashFn m s = identify_sync_candidates hashFn2 m s ∧
    (∀ c, identify_sync_candidates hashFn m s = Except.ok c →
      c.new_files = m.filter (isNewRec s) ∧
      (∀ f ∈ m, ∀ t, lookupEntry s f.relative_path = some t →
        f.size = t.size → f.modified = t.modified →
        f ∉ c.new_files ∧ f ∉ c.modified_files ∧ f ∉ c.missing_transfers) ∧
      ((∀ f ∈ m, f.hash = none) → ∀ g ∈ c.new_files, g.hash = none)) := by
  have hmodeq : m.filterMap (modEntry hashFn s) = m.filterMap (modEntry hashFn2 s) :=
    filterMap_congr_mem _ _ m
      (fun x hx => modEntry_congr hashFn hashFn2 s x (hagree x hx))
  constructor
  · cases he : identify_sync_candidates hashFn m s with
    | ok c =>
        have hhashes := identifyLoop_ok_hashes hashFn s m c he
        have hhashes2 : ∀ f ∈ m, needsHash s f = true → exceptOk (hashFn2 f.path) = true := by
          intro f hf hneed
          rw [← hagree f hf hneed]
          exact hhashes f hf hneed
        have h1 := identifyLoop_ok_of hashFn s m hhashes
        have h2 := identifyLoop_ok_of hashFn2 s m hhashes2
        have he2 : identifyLoop hashFn s m = Except.ok c := he
        rw [he2] at h1
        have hc := Except.ok.inj h1
        show Except.ok c = identifyLoop hashFn2 s m
        rw [h2, hc, hmodeq]
    | error e =>
        cases e
        have h2 : identify_sync_candidates hashFn2 m s = Except.error () := by
          apply except_unit_error
          intro c hc
          have hhashes2 := identifyLoop_ok_hashes hashFn2 s m c hc
          have hhashes : ∀ f ∈ m, needsHash s f = true → exceptOk (hashFn f.path) = true := by
            intro f hf hneed
            rw [hagree f hf hneed]
            exact hhashes2 f hf hneed
          have h1 := identifyLoop_ok_of hashFn s m hhashes
          show False
          rw [show identifyLoop hashFn s m = identify_sync_candidates hashFn m s from rfl,
            he] at h1
          exact Except.noConfusion h1
        rw [h2]
  · intro c hok
    have hshape := identifyLoop_ok_shape hashFn s m c hok
    subst hshape
    refine ⟨rfl, ?_, ?_⟩
    · intro f hf t ht hsz hmd
      refine ⟨?_, ?_, ?_⟩
      · intro hmem
        have h2 := (List.mem_filter.mp hmem).2
        rw [show isNewRec s f = false by simp [isNewRec, ht]] at h2
        exact Bool.noConfusion h2
      · intro hmem
        obtain ⟨a, ha, hma⟩ := List.mem_filterMap.mp hmem
        obtain ⟨t2, hv2, hlt2, hcond2, hh2, hne2, heq⟩ :=
          modEntry_some_inv hashFn s a _ hma
        have harel : a.relative_path = f.relative_path :=
          (congrArg FileRecord.relative_path heq).symm
        have hasz : a.size = f.size := (congrArg FileRecord.size heq).symm
        have hamd : a.modified = f.modified := (congrArg FileRecord.modified heq).symm
        rw [harel, ht] at hlt2
        injection hlt2 with ht2
        subst ht2
        rcases hcond2 with hbad | hbad
        · exact hbad (by rw [hasz, hsz])
        · exact hbad (by rw [hamd, hmd])
      · intro hmem
        simp at hmem
    · intro hall g hg
      exact hall g (List.mem_filter.mp hg).1

/-- Witness for C2: two hash oracles agreeing only on the one hashed path
produce identical detection results on the concrete three-file run. -/
theorem c2_witness :
    identify_sync_candidates wHash wM wStore = identify_sync_candidates wHash2 wM wStore := by
  exact (c2_lazy_hashing wHash wHash2 wM wStore (by decide)).1

/-- Claim C3: recording a file as transferred (mark_as_transferred) and then
immediately running detection on the same, unchanged library state
classifies that file as unchanged: it appears in neither new_files nor
modified_files. -/
theorem c3_round_trip_unchanged
    (hashFn : List String → Except Unit String) (db db2 : List TransferredRow)
    (m : List FileRecord) (c : Candidates) (f : FileRecord) (now : Int) (method : String)
    (hdist : m.Pairwise (fun a b => a.relative_path ≠ b.relative_path))
    (hf : f ∈ m)
    (hmark : mark_as_transferred hashFn db f now method = Except.ok db2)
    (hdet : identify_sync_candidates hashFn m (get_transferred_files db2) = Except.ok c) :
    unchangedIn c f ∧ f ∉ c.new_files ∧ f ∉ c.modified_files := by
  cases hh : hashFn f.path with
  | error e =>
      simp only [mark_as_transferred, hh] at hmark
      exact Except.noConfusion hmark
  | ok hv =>
      simp only [mark_as_transferred, hh, Except.ok.injEq] at hmark
      subst hmark
      have ht : lookupEntry (get_transferred_files (upsertRow db
            { file_path := f.relative_path, file_hash := hv, file_size := f.size,
              last_modified := f.modified, transferred_date := now,
              transfer_method := method })) f.relative_path =
          some { hash := hv, size := f.size, modified := f.modified } :=
        lookupEntry_get_upsertRow db _
      have hshape := identifyLoop_ok_shape hashFn _ m c hdet
      subst hshape
      have hu := unchanged_of_shape hashFn
        (get_transferred_files (upsertRow db
          { file_path := f.relative_path, file_hash := hv, file_size := f.size,
            last_modified := f.modified, transferred_date := now,
            transfer_method := method }))
        m f hdist hf
        (by simp [isNewRec, ht])
        (by simp [modEntry, ht])
      exact ⟨hu, fun hmem => (hu.1 f hmem) rfl, fun hmem => (hu.2.1 f hmem) rfl⟩

/-- Witness for C3: after marking wfA as transferred into an empty store,
detection on the unchanged one-file library returns empty candidates and
wfA is unchanged. -/
theorem c3_witness :
    unchangedIn { new_files := [], modified_files := [], missing_transfers := [] } wfA := by
  exact (c3_round_trip_unchanged w3Hash [] [w3row] [wfA]
    { new_files := [], modified_files := [], missing_transfers := [] }
    wfA 999 "manual" (by decide) (by simp) (by rfl) (by rfl)).1

/-- Claim C7: detection is deterministic (equal inputs, including identical
hash results, give equal outputs) and per-file independent: each file's
classification — membership in new_files, its contributed modified entry,
or being unchanged — is characterized by a function of its own record and
its own stored entry alone. -/
theorem c7_deterministic_per_file
    (hashFn : List String → Except Unit String) (m : List FileRecord)
    (s : List (List String × TransferredInfo)) (c : Candidates)
    (hdist : m.Pairwise (fun a b => a.relative_path ≠ b.relative_path))
    (hok : identify_sync_candidates hashFn m s = Except.ok c) :
    (∀ (hashFn2 : List String → Except Unit String) (m2 : List FileRecord)
        (s2 : List (List String × TransferredInfo)),
        hashFn2 = hashFn → m2 = m → s2 = s →
        identify_sync_candidates hashFn2 m2 s2 = identify_sync_candidates hashFn m s) ∧
    (∀ f ∈ m,
      (f ∈ c.new_files ↔ isNewRec s f = true) ∧
      (∀ g, (g ∈ c.modified_files ∧ g.relative_path = f.relative_path) ↔
        modEntry hashFn s f = some g) ∧
      (unchangedIn c f ↔ (isNewRec s f = false ∧ modEntry hashFn s f = none))) := by
  have hshape := identifyLoop_ok_shape hashFn s m c hok
  subst hshape
  constructor
  · intro hashFn2 m2 s2 h1 h2 h3
    subst h1; subst h2; subst h3
    rfl
  · intro f hf
    refine ⟨⟨?_, ?_⟩, ?_, ?_⟩
    · intro hmem
      exact (List.mem_filter.mp hmem).2
    · intro hnew
      exact List.mem_filter.mpr ⟨hf, hnew⟩
    · intro g
      constructor
      · rintro ⟨hmem, hrel⟩
        obtain ⟨a, ha, hma⟩ := List.mem_filterMap.mp hmem
        obtain ⟨t2, hv2, hlt2, hcond2, hh2, hne2, heq⟩ :=
          modEntry_some_inv hashFn s a _ hma
        have harel : a.relative_path = f.relative_path := by
          rw [← hrel]
          exact (congrArg FileRecord.relative_path heq).symm
        have haf : a = f := rel_path_inj hdist a ha f hf harel
        subst haf
        exact hma
      · intro hma
        obtain ⟨t2, hv2, hlt2, hcond2, hh2, hne2, heq⟩ :=
          modEntry_some_inv hashFn s f _ hma
        exact ⟨List.mem_filterMap.mpr ⟨f, hf, hma⟩, by rw [heq]⟩
    · constructor
      · intro hu
        constructor
        · cases hnew : isNewRec s f with
          | false => rfl
          | true =>
              exact absurd rfl (hu.1 f (List.mem_filter.mpr ⟨hf, hnew⟩))
        · cases hma : modEntry hashFn s f with
          | none => rfl
          | some g =>
              obtain ⟨t2, hv2, hlt2, hcond2, hh2, hne2, heq⟩ :=
                modEntry_some_inv hashFn s f _ hma
              exact absurd (congrArg FileRecord.relative_path heq)
                (hu.2.1 g (List.mem_filterMap.mpr ⟨f, hf, hma⟩))
      · rintro ⟨hnew, hmod⟩
        exact unchanged_of_shape hashFn s m f hdist hf hnew hmod

/-- Witness for C7 at the concrete three-file run: the new-file membership
test and the unchanged characterization, instantiated. -/
theorem c7_witness :
    (wfA ∈ wC.new_files ↔ isNewRec wStore wfA = true) ∧ unchangedIn wC wfC := by
  have h := c7_deterministic_per_file wHash wM wStore wC (by decide) (by rfl)
  exact ⟨(h.2 wfA (by simp [wM])).1,
    ((h.2 wfC (by simp [wM])).2.2).mpr ⟨by decide, by decide⟩⟩

/-- Claim C4: the queue document lists exactly the new files followed by
the modified files in input order, every entry queued, with total_files the
number of listed entries and total_size the sum of their sizes; with an
empty store and a three-file library all three files are listed as queued. -/
theorem c4_queue_document (created : String) (c : Candidates) :
    (create_transfer_queue created c).files =
      (c.new_files ++ c.modified_files).map
        (fun f => { path := f.path, relative_path := f.relative_path, size := f.size,
                    status := "queued" }) ∧
    (create_transfer_queue created c).total_files =
      (create_transfer_queue created c).files.length ∧
    (create_transfer_queue created c).total_size =
      ((create_transfer_queue created c).files.map QueueEntry.size).sum ∧
    (create_transfer_queue created c).created = created ∧
    (∀ (hashFn : List String → Except Unit String) (f1 f2 f3 : FileRecord),
      identify_sync_candidates hashFn [f1, f2, f3] (get_transferred_files []) =
        Except.ok { new_files := [f1, f2, f3], modified_files := [],
                    missing_transfers := [] } ∧
      ((create_transfer_queue created
          { new_files := [f1, f2, f3], modified_files := [],
            missing_transfers := [] }).files.map QueueEntry.status) =
        ["queued", "queued", "queued"]) := by
  have hq := queueAdd_eq (c.new_files ++ c.modified_files)
    { created := created, total_files := c.new_files.length + c.modified_files.length,
      total_size := 0, files := [] }
  refine ⟨?_, ?_, ?_, ?_, ?_⟩
  · simp [create_transfer_queue, hq]
  · simp [create_transfer_queue, hq]
  · simp [create_transfer_queue, hq, List.map_map, Function.comp_def]
  · simp [create_transfer_queue, hq]
  · intro hashFn f1 f2 f3
    constructor
    · have hnh : ∀ f ∈ [f1, f2, f3],
          needsHash (get_transferred_files []) f = true →
          exceptOk (hashFn f.path) = true := by
        intro f _ hneed
        simp [needsHash, get_transferred_files, lookupEntry] at hneed
      have h := identifyLoop_ok_of hashFn (get_transferred_files []) [f1, f2, f3] hnh
      show identifyLoop hashFn (get_transferred_files []) [f1, f2, f3] = _
      rw [h]
      simp [isNewRec, modEntry, get_transferred_files, lookupEntry]
    · simp [create_transfer_queue, queueAdd_eq]

/-- Claim C5 counterexample: with a store entry whose size drifted and a
hash oracle that fails, the whole detection run aborts with the error
instead of completing and classifying the remaining (new) file. -/
theorem c5_counterexample :
    identify_sync_candidates c5hash [c5fA, c5fB] c5store = Except.error () := by rfl

/-- Claim C5 as amended: a hashing failure during detection is not
contained — whenever some master record needs hashing and the hash oracle
fails on it, identify_sync_candidates propagates the error and returns no
candidates at all. -/
theorem c5_amended_hash_error_aborts
    (hashFn : List String → Except Unit String) (m : List FileRecord)
    (s : List (List String × TransferredInfo))
    (h : ∃ f, f ∈ m ∧ needsHash s f = true ∧ exceptOk (hashFn f.path) = false) :
    identify_sync_candidates hashFn m s = Except.error () := by
  obtain ⟨f, hf, hneed, hbad⟩ := h
  apply except_unit_error
  intro c hc
  have hc2 : identifyLoop hashFn s m = Except.ok c := hc
  have hgood := identifyLoop_ok_hashes hashFn s m c hc2 f hf hneed
  rw [hgood] at hbad
  exact Bool.noConfusion hbad

/-- Witness for the amended C5 on a one-file run: the failing hash aborts
detection. -/
theorem c5_witness :
    identify_sync_candidates c5hash [c5fA] c5store = Except.error () := by
  exact c5_amended_hash_error_aborts c5hash [c5fA] c5store
    ⟨c5fA, by simp, by decide, by decide⟩

/-- Claim C6 counterexample: with empty candidates, main leaves a non-empty
queue document from a previous run in place — the stale queue is neither
overwritten nor removed. -/
theorem c6_counterexample :
    mainQueueStep "2024-01-02T00:00:00" (some c6stale)
      { new_files := [], modified_files := [], missing_transfers := [] } =
      some c6stale ∧ c6stale.files ≠ [] := by
  exact ⟨rfl, by decide⟩

/-- Claim C6 as amended: when candidates are empty, main writes no queue at
all and whatever queue file a previous run left remains in place unchanged;
only a run with a non-empty candidate set overwrites the prior queue. -/
theorem c6_amended_stale_queue (created : String) (prev : Option QueueData)
    (c : Candidates) :
    (c.new_files = [] ∧ c.modified_files = [] → mainQueueStep created prev c = prev) ∧
    (c.new_files.length + c.modified_files.length > 0 →
      mainQueueStep created prev c = some (create_transfer_queue created c)) := by
  constructor
  · rintro ⟨h1, h2⟩
    simp [mainQueueStep, h1, h2]
  · intro h
    simp [mainQueueStep, h]

/-- Witness for the amended C6: an empty candidate set leaves the stale
queue untouched. -/
theorem c6_witness :
    mainQueueStep "t2" (some c6stale)
      { new_files := [], modified_files := [], missing_transfers := [] } =
      some c6stale := by
  exact (c6_amended_stale_queue "t2" (some c6stale)
    { new_files := [], modified_files := [], missing_transfers := [] }).1 ⟨rfl, rfl⟩

/-- Claim C8: the transfer-state store only grows or replaces.  Schema
initialization keeps every pre-existing row; upsert replaces the row with
the same key and inserts otherwise, never removing any other key; and
mark_as_transferred only upserts, so every key present before a successful
mark is still present after it. -/
theorem c8_store_grows_only :
    (∀ (db : Database) (rows : List TransferredRow),
        db.transferred_files = some rows →
        (init_database db).transferred_files = some rows) ∧
    (∀ db : Database, db.transferred_files = none →
        (init_database db).transferred_files = some []) ∧
    (∀ (store : List TransferredRow) (r : TransferredRow),
        findRow (upsertRow store r) r.file_path = some r) ∧
    (∀ (store : List TransferredRow) (r : TransferredRow) (k : List String),
        k ≠ r.file_path → findRow (upsertRow store r) k = findRow store k) ∧
    (∀ (store : List TransferredRow) (r : TransferredRow) (k : List String),
        (findRow store k).isSome = true →
        (findRow (upsertRow store r) k).isSome = true) ∧
    (∀ (hashFn : List String → Except Unit String) (db db2 : List TransferredRow)
        (f : FileRecord) (now : Int) (method : String),
        mark_as_transferred hashFn db f now method = Except.ok db2 →
        ∀ k, (findRow db k).isSome = true → (findRow db2 k).isSome = true) := by
  refine ⟨?_, ?_, findRow_upsertRow_self, findRow_upsertRow_other,
    fun store r k => findRow_isSome_upsertRow store r k, ?_⟩
  · intro db rows h
    simp [init_database, h]
  · intro db h
    simp [init_database, h]
  · intro hashFn db db2 f now method hmark k hk
    cases hh : hashFn f.path with
    | error e =>
        simp only [mark_as_transferred, hh] at hmark
        exact Except.noConfusion hmark
    | ok hv =>
        simp only [mark_as_transferred, hh, Except.ok.injEq] at hmark
        subst hmark
        exact findRow_isSome_upsertRow db _ k hk

/-- Witness for C8: re-initializing a database with an existing table keeps
its rows. -/
theorem c8_witness : (init_database w8db).transferred_files = some [w8row] := by
  exact c8_store_grows_only.1 w8db [w8row] rfl

/-- Claim C9 counterexample: the scanner copies the path case verbatim — a
mixed-case file name stays mixed-case in relative_path, so relativePath is
not case-normalized (its lowercase form differs from it). -/
theorem c9_counterexample :
    (scan_master_library c9root [c9entry]).map FileRecord.relative_path =
      [["Track.MP3"]] ∧
    (["Track.MP3"] : List String).map lowerString ≠ ["Track.MP3"] := by
  exact ⟨rfl, by decide⟩

/-- Claim C9 as amended: every scanned record's relativePath is exactly the
entry's path components with the master-root prefix stripped, case
preserved verbatim (only extension matching is case-insensitive); it is
non-empty, so it never equals the absolute path; and distinct entries give
records with pairwise distinct relativePaths. -/
theorem c9_amended_relative_paths (root : List String) (entries : List FSEntry)
    (hroot : ∀ e ∈ entries, e.components.take root.length = root ∧
        root.length < e.components.length)
    (hdist : entries.Pairwise (fun a b => a.components ≠ b.components)) :
    (∀ r ∈ scan_master_library root entries,
        ∃ e ∈ entries, r.path = e.components ∧
          e.components = root ++ r.relative_path ∧
          r.relative_path ≠ [] ∧ r.hash = none) ∧
    (scan_master_library root entries).Pairwise
      (fun a b => a.relative_path ≠ b.relative_path) := by
  constructor
  · intro r hr
    obtain ⟨e, he, hfe⟩ := List.mem_filterMap.mp hr
    refine ⟨e, he, ?_⟩
    split at hfe
    · simp only [Option.some.injEq] at hfe
      subst hfe
      refine ⟨rfl, ?_, ?_, rfl⟩
      · have h1 := (hroot e he).1
        have h2 := List.take_append_drop root.length e.components
        rw [h1] at h2
        exact h2.symm
      · intro hnil
        have h2 := (hroot e he).2
        have hnil2 : List.drop root.length e.components = [] := hnil
        have hlen : e.components.length - root.length = 0 := by
          rw [← List.length_drop, hnil2]
          rfl
        omega
    · exact Option.noConfusion hfe
  · have hdrop := pairwise_drop_of_take entries (fun e he => (hroot e he).1) hdist
    apply pairwise_filterMap_of _ entries hdrop
    intro a b hab x y hfa hfb
    split at hfa
    · simp only [Option.some.injEq] at hfa
      split at hfb
      · simp only [Option.some.injEq] at hfb
        subst hfa
        subst hfb
        exact fun hxy => hab hxy
      · exact Option.noConfusion hfb
    · exact Option.noConfusion hfa

/-- Witness for the amended C9 on two concrete entries: the scanned records
carry pairwise distinct relative paths. -/
theorem c9_witness :
    (scan_master_library c9root [c9entry, c9entry2]).Pairwise
      (fun a b => a.relative_path ≠ b.relative_path) := by
  exact (c9_amended_relative_paths c9root [c9entry, c9entry2]
    (by decide) (by decide)).2

end DopplerSync
